import Mathlib

/-
Shallow embedding of `src/datastore.py` (class `RecipeStore`): a MongoDB-backed
work queue with an append-only audit trail.

Modelling conventions:
- Timestamps (`dt.now()`, `td(seconds=1)`) are natural numbers; `now + 1`
  stands for `now += td(seconds=1)`.
- The `queue` collection is a list of `QEntry` (document `{uri, ts, state}`),
  the `action` collection a list of `ARecord` (document `{uri, ts, act}`).
  `insert_one` appends at the end; queries are order-insensitive except for
  the explicit `sort("ts", ASCENDING)` which we model by a minimum scan.
- A Python function that falls off its end returns `None`; we model such a
  return type as `Option Bool` with `none` for the implicit `None`.
- The module-level `mutex = Lock()` (a non-reentrant `threading.Lock`) is
  modelled by a `LockOwner` state; `mutex.acquire(blocking=True, timeout=3)`
  on a lock that is already held (by this thread or another holding it past
  the timeout) blocks for the full 3 seconds and returns `False`.
- Concurrent interference is modelled extensionally: `dequeue` reads the
  queue collection once per polling attempt, so the loop takes a family
  `obs : Nat → List QEntry` giving the collection contents seen at attempt
  `k`, and a `final` snapshot for the post-loop `count()`.  A purely
  sequential call is the special case where all snapshots coincide.
-/

namespace RecipeStore

/-- Queue-entry state: `"wait"` (waiting) or `"scrape"` (in progress). -/
inductive QState
  | wait
  | scrape
deriving DecidableEq

/-- A document of the `queue` collection: `{"uri": ..., "ts": ..., "state": ...}`. -/
structure QEntry where
  uri : String
  ts : Nat
  state : QState
deriving DecidableEq

/-- A document of the `action` collection: `{"uri": ..., "ts": ..., "act": ...}`. -/
structure ARecord where
  uri : String
  ts : Nat
  act : String
deriving DecidableEq

/-- The two collections `dequeue`/`enqueue`/`dequeue_finish` touch. -/
structure Store where
  queue : List QEntry
  action : List ARecord
deriving DecidableEq

/-- The empty store (fresh database). -/
def stEmpty : Store := ⟨[], []⟩

/-- `is_enqueued` (datastore.py line 140): `queue.find({"uri": uri}).count() > 0`. -/
def is_enqueued (q : List QEntry) (u : String) : Bool :=
  decide (0 < (q.filter (fun e => e.uri = u)).length)

/-- `enqueue` (datastore.py lines 143-152).  On a duplicate it executes
`return False`; on the success path it inserts the queue entry and the
`"enqueue"` action record and then falls off the end, returning `None`
(modelled as `none`). -/
def enqueue (s : Store) (u : String) (now : Nat) : Store × Option Bool :=
  if is_enqueued s.queue u then (s, some false)
  else
    ({ queue := s.queue ++ [⟨u, now, QState.wait⟩],
       action := s.action ++ [⟨u, now, "enqueue"⟩] }, none)

/-- Owner of the module-level `mutex` (`threading.Lock`, non-reentrant). -/
inductive LockOwner
  | free
  | self
  | other
deriving DecidableEq

/-- `mutex.acquire(blocking=True, timeout=3)` (datastore.py line 159): succeeds
at once when the lock is free; when the lock is held — by the calling thread
itself (a `Lock` is not reentrant) or by another thread that keeps it past the
timeout — it blocks for the full 3 seconds and then returns `False`.  The
source ignores this return value. -/
def acquireResult : LockOwner → Bool × LockOwner
  | LockOwner.free => (true, LockOwner.self)
  | LockOwner.self => (false, LockOwner.self)
  | LockOwner.other => (false, LockOwner.other)

/-- Primitive effects a `dequeue` run performs, in order.  `findWait` is
annotated with the lock owner at the moment the query runs (ghost data).
`sleep` is the vocabulary for a real timed delay (`time.sleep`); the source
contains no such call, so the model never emits it. -/
inductive DqEvent
  | acquire (ok : Bool)
  | findWait (owner : LockOwner)
  | sleep (secs : Nat)
  | updateScrape (uri : String)
  | release
  | countWait
  | aggregate
  | logDebug
  | raiseEmpty
  | insertAction (uri : String) (ts : Nat)
deriving DecidableEq

/-- Keep the entry with the smaller `ts` (the earlier one on ties). -/
def older (a b : QEntry) : QEntry := if b.ts < a.ts then b else a

/-- `minByTs q` models `find(...).sort("ts", ASCENDING).limit(1)`: the entry
with the least `ts` (first such entry on ties). -/
def minByTs : List QEntry → Option QEntry
  | [] => none
  | e :: es => some (es.foldl older e)

/-- The per-attempt query of `dequeue` (datastore.py lines 160-164):
`queue.find({"state": "wait"}).sort("ts", ASCENDING).limit(1)`. -/
def findOldestWait (q : List QEntry) : Option QEntry :=
  minByTs (q.filter (fun e => e.state = QState.wait))

/-- Result of the polling loop of `dequeue`. -/
structure LoopOut where
  events : List DqEvent
  found : Option (QEntry × Nat)
  lock : LockOwner
  rt : Nat
  nowFinal : Nat
deriving DecidableEq

/-- The polling loop of `dequeue` (datastore.py lines 158-169):
`while entry is None and tries_left > 0`.  Each iteration re-runs
`mutex.acquire(blocking=True, timeout=3)` (the lock is never released inside
the loop, so every acquire after a successful first one blocks its full 3
seconds and fails); then queries the oldest waiting entry of the current
collection contents `obs k`.  On a miss it executes `now += td(seconds=1)`
and `tries_left -= 1` — a virtual-clock advance, with no sleep.  `rt` is the
real-time clock (ghost): it advances by 3 exactly when an acquire waits out
its timeout, and `found` carries the entry together with the value of `now`
at the time of the hit. -/
def dqLoop (obs : Nat → List QEntry) (k now t : Nat) (lock : LockOwner) (rt : Nat) :
    LoopOut :=
  match t with
  | 0 => ⟨[], none, lock, rt, now⟩
  | Nat.succ t' =>
    let a := acquireResult lock
    let rt' := if a.1 then rt else rt + 3
    match findOldestWait (obs k) with
    | some e =>
      ⟨[DqEvent.acquire a.1, DqEvent.findWait a.2], some (e, now), a.2, rt', now⟩
    | none =>
      let r := dqLoop obs (k + 1) (now + 1) t' a.2 rt'
      ⟨DqEvent.acquire a.1 :: DqEvent.findWait a.2 :: r.events,
       r.found, r.lock, r.rt, r.nowFinal⟩

/-- How a `dequeue` call ends: `return parse_url(entry["uri"])`, `raise
EmptyQueueException`, the implicit `return None` when `queue_size` is nonzero
at the final check, or the `AttributeError` raised by `self._logger.debug`
when no logger was injected (`self._logger` is `None`). -/
inductive DequeueOutcome
  | ok (uri : String)
  | emptyErr
  | noneReturn
  | loggerCrash
deriving DecidableEq

/-- Observable result of one `dequeue` call. -/
structure DequeueOut where
  events : List DqEvent
  outcome : DequeueOutcome
  foundEntry : Option (QEntry × Nat)
  transitionTime : Option Nat
  virtualNow : Nat
  lockAfter : LockOwner
deriving DecidableEq

/-- `queue.find({"state": "wait"}).count()` (datastore.py line 182). -/
def waitCount (q : List QEntry) : Nat :=
  (q.filter (fun e => e.state = QState.wait)).length

/-- `dequeue` (datastore.py lines 154-193).  `loggerSet` says whether
`setLogger` was ever called; `obs k` is the queue collection seen by polling
attempt `k`; `final` is the collection at the post-loop `count()`; `start` is
`dt.now()` captured at entry (both the virtual `now` and the real clock start
there); `lock0` is the mutex owner when the call begins.

Found branch (lines 171-179): `update_one({"uri": ...}, {"$set": {"state":
"scrape"}})`, then `mutex.release()`, then insert of the `"scrape"` action
record stamped with the virtual `now`, then return.  The transition itself
happens at real time `rt`.  Miss branch (lines 180-193): `mutex.release()`
(a `threading.Lock` can be released by any thread, so this unlocks whoever
holds it), the `count()`, the aggregate, then `self._logger.debug(...)` —
an `AttributeError` when `self._logger is None` — and finally
`raise EmptyQueueException` only when the count was zero; otherwise the
function falls off the end. -/
def dequeueRun (loggerSet : Bool) (obs : Nat → List QEntry) (final : List QEntry)
    (start : Nat) (lock0 : LockOwner) : DequeueOut :=
  let r := dqLoop obs 0 start 10 lock0 start
  match r.found with
  | some p =>
    { events := r.events ++ [DqEvent.updateScrape p.1.uri, DqEvent.release,
                             DqEvent.insertAction p.1.uri p.2],
      outcome := DequeueOutcome.ok p.1.uri,
      foundEntry := some p,
      transitionTime := some r.rt,
      virtualNow := r.nowFinal,
      lockAfter := LockOwner.free }
  | none =>
    let evs := r.events ++ [DqEvent.release, DqEvent.countWait, DqEvent.aggregate]
    if loggerSet then
      if waitCount final = 0 then
        { events := evs ++ [DqEvent.logDebug, DqEvent.raiseEmpty],
          outcome := DequeueOutcome.emptyErr, foundEntry := none,
          transitionTime := none, virtualNow := r.nowFinal,
          lockAfter := LockOwner.free }
      else
        { events := evs ++ [DqEvent.logDebug],
          outcome := DequeueOutcome.noneReturn, foundEntry := none,
          transitionTime := none, virtualNow := r.nowFinal,
          lockAfter := LockOwner.free }
    else
      { events := evs, outcome := DequeueOutcome.loggerCrash, foundEntry := none,
        transitionTime := none, virtualNow := r.nowFinal,
        lockAfter := LockOwner.free }

/-- `update_one({"uri": u}, {"$set": {"state": "scrape"}})`: flips the state
of the first entry whose `uri` matches. -/
def setScrapeFirst : List QEntry → String → List QEntry
  | [], _ => []
  | e :: es, u =>
    if e.uri = u then { e with state := QState.scrape } :: es
    else e :: setScrapeFirst es u

/-- A sequential (interference-free) `dequeue` call: every snapshot is the
store's current queue, the lock starts free, and the found branch's mutations
are applied to the store. -/
def dequeueSeq (loggerSet : Bool) (s : Store) (start : Nat) :
    DequeueOutcome × Store :=
  let r := dequeueRun loggerSet (fun _ => s.queue) s.queue start LockOwner.free
  match r.foundEntry with
  | some p =>
    (r.outcome,
     { queue := setScrapeFirst s.queue p.1.uri,
       action := s.action ++ [⟨p.1.uri, p.2, "scrape"⟩] })
  | none => (r.outcome, s)

/-- `queue.delete_one({"uri": u})`: removes the first entry whose `uri`
matches (no-op when none matches). -/
def deleteFirst : List QEntry → String → List QEntry
  | [], _ => []
  | e :: es, u => if e.uri = u then es else e :: deleteFirst es u

/-- `dequeue_finish` (datastore.py lines 195-208): unconditionally
`delete_one` the entry for the uri (the before/after counts and the log line
are observational only) and insert a `"finish"` action record. -/
def dequeue_finish (s : Store) (u : String) (now : Nat) : Store :=
  { queue := deleteFirst s.queue u,
    action := s.action ++ [⟨u, now, "finish"⟩] }

/-- The store-level error the unique `idx_uri` index on `queue.uri`
(datastore.py line 78) raises on a duplicate insert. -/
inductive MongoErr
  | duplicateKey
deriving DecidableEq

/-- `queue.insert_one` under the unique `uri` index: rejects a document whose
`uri` is already present. -/
def insertQueueUnique (q : List QEntry) (e : QEntry) : Except MongoErr (List QEntry) :=
  if 0 < (q.filter (fun x => x.uri = e.uri)).length then
    Except.error MongoErr.duplicateKey
  else Except.ok (q ++ [e])

/-- `enqueue` under a concurrent race: `sCheck` is the store state at the
`is_enqueued` read, `sInsert` the state when `insert_one` runs (a concurrent
duplicate enqueue makes them differ).  The source wraps `insert_one` in no
`try`/`except`, so a duplicate-key rejection propagates to the caller,
modelled as `Except.error`. -/
def enqueueRaced (sCheck sInsert : Store) (u : String) (now : Nat) :
    Except MongoErr (Store × Option Bool) :=
  if is_enqueued sCheck.queue u then Except.ok (sInsert, some false)
  else
    match insertQueueUnique sInsert.queue ⟨u, now, QState.wait⟩ with
    | Except.error err => Except.error err
    | Except.ok q' =>
      Except.ok ({ queue := q',
                   action := sInsert.action ++ [⟨u, now, "enqueue"⟩] }, none)

/-- The queue entry `enqueue` inserts for the pair (uri, timestamp). -/
def mkEntry (p : String × Nat) : QEntry := ⟨p.1, p.2, QState.wait⟩

/-- A producer's sequence of `enqueue` calls, one per (uri, timestamp) pair. -/
def enqueueAll : Store → List (String × Nat) → Store
  | s, [] => s
  | s, p :: ps => enqueueAll (enqueue s p.1 p.2).1 ps

/-- A consumer's sequence of sequential `dequeue` calls, collecting the
returned uris and stopping at the first non-returning call. -/
def drain (s : Store) : Nat → List String
  | 0 => []
  | Nat.succ n =>
    match dequeueSeq true s 0 with
    | (DequeueOutcome.ok u, s') => u :: drain s' n
    | _ => []

/-- Per-id audit history: the action records for one uri, in insertion
order (the `(uri, ts, act)` index's read path). -/
def historyFor (u : String) (acts : List ARecord) : List ARecord :=
  acts.filter (fun a => a.uri = u)

/-- Whether an event list contains a real timed delay. -/
def hasSleep (evs : List DqEvent) : Bool :=
  evs.any fun e =>
    match e with
    | DqEvent.sleep _ => true
    | _ => false

/-- The lock owners at the moments the search query ran. -/
def searchOwners (evs : List DqEvent) : List LockOwner :=
  evs.filterMap fun e =>
    match e with
    | DqEvent.findWait o => some o
    | _ => none

/-- Number of `mutex.acquire` calls in an event list. -/
def acquireCount (evs : List DqEvent) : Nat :=
  (evs.filter fun e =>
    match e with
    | DqEvent.acquire _ => true
    | _ => false).length

/-! ### Lemmas about the oldest-waiting-entry query -/

/-- Folding `older` over entries none of which beats the accumulator leaves
the accumulator in place. -/
theorem foldl_older_fix (l : List QEntry) (a : QEntry)
    (h : ∀ b ∈ l, ¬ b.ts < a.ts) : l.foldl older a = a := by
  induction l with
  | nil => rfl
  | cons b bs ih =>
    have hb : ¬ b.ts < a.ts := h b (List.mem_cons_self b bs)
    rw [List.foldl_cons, show older a b = a from if_neg hb]
    exact ih (fun c hc => h c (List.mem_cons_of_mem _ hc))

/-- An entry strictly below every other entry of the list is never beaten. -/
theorem not_lt_of_strict_min (e : QEntry) (l : List QEntry)
    (hmin : ∀ x ∈ l, x ≠ e → e.ts < x.ts) : ∀ c ∈ l, ¬ c.ts < e.ts := by
  intro c hc
  by_cases hce : c = e
  · subst hce; exact Nat.lt_irrefl _
  · exact Nat.lt_asymm (hmin c hc hce)

/-- Folding `older` over a list containing a strict minimum returns it,
whatever the (larger) accumulator. -/
theorem foldl_older_min : ∀ (l : List QEntry) (e : QEntry), e ∈ l →
    (∀ x ∈ l, x ≠ e → e.ts < x.ts) →
    ∀ a : QEntry, e.ts < a.ts → l.foldl older a = e := by
  intro l
  induction l with
  | nil => intro e he; cases he
  | cons b bs ih =>
    intro e he hmin a ha
    rw [List.foldl_cons]
    by_cases hbe : b = e
    · subst hbe
      rw [show older a b = b from if_pos ha]
      exact foldl_older_fix bs b
        (not_lt_of_strict_min b bs (fun x hx => hmin x (List.mem_cons_of_mem _ hx)))
    · have he' : e ∈ bs := by
        rcases List.mem_cons.mp he with h | h
        · exact absurd h.symm hbe
        · exact h
      have hmin' : ∀ x ∈ bs, x ≠ e → e.ts < x.ts :=
        fun x hx => hmin x (List.mem_cons_of_mem _ hx)
      have hb : e.ts < b.ts := hmin b (List.mem_cons_self _ _) hbe
      by_cases hba : b.ts < a.ts
      · rw [show older a b = b from if_pos hba]
        exact ih e he' hmin' b hb
      · rw [show older a b = a from if_neg hba]
        exact ih e he' hmin' a ha

/-- `minByTs` returns the strict minimum of the list. -/
theorem minByTs_min (l : List QEntry) (e : QEntry) (he : e ∈ l)
    (hmin : ∀ x ∈ l, x ≠ e → e.ts < x.ts) : minByTs l = some e := by
  cases l with
  | nil => cases he
  | cons b bs =>
    show some (bs.foldl older b) = some e
    by_cases hbe : b = e
    · subst hbe
      rw [foldl_older_fix bs b
        (not_lt_of_strict_min b bs (fun x hx => hmin x (List.mem_cons_of_mem _ hx)))]
    · have he' : e ∈ bs := by
        rcases List.mem_cons.mp he with h | h
        · exact absurd h.symm hbe
        · exact h
      rw [foldl_older_min bs e he'
        (fun x hx => hmin x (List.mem_cons_of_mem _ hx)) b
        (hmin b (List.mem_cons_self _ _) hbe)]

/-- The per-attempt query returns the waiting entry with the strictly
minimal timestamp. -/
theorem findOldestWait_eq (q : List QEntry) (e : QEntry) (he : e ∈ q)
    (hw : e.state = QState.wait)
    (hmin : ∀ x ∈ q, x.state = QState.wait → x ≠ e → e.ts < x.ts) :
    findOldestWait q = some e := by
  apply minByTs_min
  · exact List.mem_filter.mpr ⟨he, by simp [hw]⟩
  · intro x hx hxe
    have hx' := List.mem_filter.mp hx
    exact hmin x hx'.1 (by simpa using hx'.2) hxe

/-! ### Unfolding lemmas for the polling loop -/

/-- One loop iteration whose query hits. -/
theorem dqLoop_found_succ (obs : Nat → List QEntry) (k now t' : Nat)
    (lock : LockOwner) (rt : Nat) (e : QEntry)
    (h : findOldestWait (obs k) = some e) :
    dqLoop obs k now (t' + 1) lock rt =
      ⟨[DqEvent.acquire (acquireResult lock).1, DqEvent.findWait (acquireResult lock).2],
       some (e, now), (acquireResult lock).2,
       if (acquireResult lock).1 then rt else rt + 3, now⟩ := by
  simp [dqLoop, h]

/-- One loop iteration whose query misses. -/
theorem dqLoop_miss_succ (obs : Nat → List QEntry) (k now t' : Nat)
    (lock : LockOwner) (rt : Nat)
    (h : findOldestWait (obs k) = none) :
    dqLoop obs k now (t' + 1) lock rt =
      ⟨DqEvent.acquire (acquireResult lock).1 :: DqEvent.findWait (acquireResult lock).2 ::
         (dqLoop obs (k + 1) (now + 1) t' (acquireResult lock).2
            (if (acquireResult lock).1 then rt else rt + 3)).events,
       (dqLoop obs (k + 1) (now + 1) t' (acquireResult lock).2
          (if (acquireResult lock).1 then rt else rt + 3)).found,
       (dqLoop obs (k + 1) (now + 1) t' (acquireResult lock).2
          (if (acquireResult lock).1 then rt else rt + 3)).lock,
       (dqLoop obs (k + 1) (now + 1) t' (acquireResult lock).2
          (if (acquireResult lock).1 then rt else rt + 3)).rt,
       (dqLoop obs (k + 1) (now + 1) t' (acquireResult lock).2
          (if (acquireResult lock).1 then rt else rt + 3)).nowFinal⟩ := by
  simp [dqLoop, h]

/-- When the loop hit an entry, `dequeueRun` reports it, returns its uri and
stamps the transition with the loop's real-time clock. -/
theorem dequeueRun_some (lg : Bool) (obs : Nat → List QEntry)
    (fin : List QEntry) (start : Nat) (l0 : LockOwner) (p : QEntry × Nat)
    (h : (dqLoop obs 0 start 10 l0 start).found = some p) :
    (dequeueRun lg obs fin start l0).foundEntry = some p ∧
    (dequeueRun lg obs fin start l0).outcome = DequeueOutcome.ok p.1.uri ∧
    (dequeueRun lg obs fin start l0).transitionTime =
      some (dqLoop obs 0 start 10 l0 start).rt := by
  unfold dequeueRun
  simp [h]

/-- When the loop found nothing, `dequeueRun` reports no entry and does not
return a uri. -/
theorem dequeueRun_none (lg : Bool) (obs : Nat → List QEntry)
    (fin : List QEntry) (start : Nat) (l0 : LockOwner)
    (h : (dqLoop obs 0 start 10 l0 start).found = none) :
    (dequeueRun lg obs fin start l0).foundEntry = none ∧
    ∀ u, (dequeueRun lg obs fin start l0).outcome ≠ DequeueOutcome.ok u := by
  unfold dequeueRun
  cases lg
  · simp [h]
  · simp [h]
    split <;> simp

/-- A sequential `dequeue` whose first query hits entry `e` returns `ok e.uri`,
flips `e`'s state via `update_one` and appends the `"scrape"` record stamped
with the start time. -/
theorem dequeueSeq_found (lg : Bool) (s : Store) (start : Nat) (e : QEntry)
    (h : findOldestWait s.queue = some e) :
    dequeueSeq lg s start =
      (DequeueOutcome.ok e.uri,
       ⟨setScrapeFirst s.queue e.uri, s.action ++ [⟨e.uri, start, "scrape"⟩]⟩) := by
  have h10 : dqLoop (fun _ => s.queue) 0 start 10 LockOwner.free start =
      ⟨[DqEvent.acquire true, DqEvent.findWait LockOwner.self],
       some (e, start), LockOwner.self, start, start⟩ := by
    have h' := dqLoop_found_succ (fun _ => s.queue) 0 start 9 LockOwner.free start e h
    simpa [acquireResult] using h'
  simp [dequeueSeq, dequeueRun, h10]

/-! ### Lemmas about the state flip, deletion and insertion -/

/-- `update_one` does not touch any uri. -/
theorem setScrapeFirst_map_uri (q : List QEntry) (u : String) :
    (setScrapeFirst q u).map QEntry.uri = q.map QEntry.uri := by
  induction q with
  | nil => rfl
  | cons a as ih =>
    by_cases h : a.uri = u <;> simp [setScrapeFirst, h, ih]

/-- With the matching entry's position exposed, `update_one` rewrites exactly
that entry and leaves every other entry untouched. -/
theorem setScrapeFirst_append (l1 : List QEntry) (e : QEntry) (l2 : List QEntry)
    (h : ∀ x ∈ l1, x.uri ≠ e.uri) :
    setScrapeFirst (l1 ++ e :: l2) e.uri =
      l1 ++ { e with state := QState.scrape } :: l2 := by
  induction l1 with
  | nil => simp [setScrapeFirst]
  | cons a as ih =>
    have ha : a.uri ≠ e.uri := h a (List.mem_cons_self _ _)
    simp only [List.cons_append, setScrapeFirst, if_neg ha, List.append_eq]
    rw [ih (fun x hx => h x (List.mem_cons_of_mem _ hx))]

/-- Flipping the head of the waiting sublist removes exactly it from the
waiting sublist, provided uris are unique. -/
theorem filter_wait_setScrape : ∀ (q : List QEntry) (e : QEntry) (w' : List QEntry),
    (q.map QEntry.uri).Nodup →
    q.filter (fun x => x.state = QState.wait) = e :: w' →
    (setScrapeFirst q e.uri).filter (fun x => x.state = QState.wait) = w' := by
  intro q
  induction q with
  | nil => intro e w' _ hf; simp at hf
  | cons a as ih =>
    intro e w' hnd hf
    rw [List.map_cons, List.nodup_cons] at hnd
    by_cases hw : a.state = QState.wait
    · rw [List.filter_cons_of_pos (by simp [hw])] at hf
      injection hf with h1 h2
      subst h1
      simpa [setScrapeFirst] using h2
    · rw [List.filter_cons_of_neg (by simp [hw])] at hf
      have he : e ∈ as :=
        List.mem_of_mem_filter (hf ▸ List.mem_cons_self e w')
      have hau : a.uri ≠ e.uri := by
        intro heq
        exact hnd.1 (heq ▸ List.mem_map_of_mem QEntry.uri he)
      simp only [setScrapeFirst, if_neg hau]
      rw [List.filter_cons_of_neg (by simp [hw])]
      exact ih e w' hnd.2 hf

/-- A uri matched by no entry is not enqueued. -/
theorem is_enqueued_eq_false (q : List QEntry) (u : String)
    (h : ∀ x ∈ q, x.uri ≠ u) : is_enqueued q u = false := by
  unfold is_enqueued
  rw [List.filter_eq_nil_iff.mpr (fun a ha => by simp [h a ha])]
  rfl

/-- A uri reported as not enqueued is matched by no entry. -/
theorem uri_absent_of_not_enqueued (q : List QEntry) (u : String)
    (h : is_enqueued q u = false) : ∀ x ∈ q, x.uri ≠ u := by
  intro x hx heq
  unfold is_enqueued at h
  have hmem : x ∈ q.filter (fun e => e.uri = u) :=
    List.mem_filter.mpr ⟨hx, by simp [heq]⟩
  have hlen : 0 < (q.filter (fun e => e.uri = u)).length :=
    List.length_pos.mpr (List.ne_nil_of_mem hmem)
  exact (of_decide_eq_false h) hlen

/-- `delete_one` on a uri matched by no entry is a no-op. -/
theorem deleteFirst_of_absent (q : List QEntry) (u : String)
    (h : ∀ x ∈ q, x.uri ≠ u) : deleteFirst q u = q := by
  induction q with
  | nil => rfl
  | cons a as ih =>
    have ha : a.uri ≠ u := h a (List.mem_cons_self _ _)
    simp only [deleteFirst, if_neg ha]
    rw [ih (fun x hx => h x (List.mem_cons_of_mem _ hx))]

/-- With unique uris, after `delete_one` no entry with the uri remains. -/
theorem deleteFirst_removes (q : List QEntry) (u : String)
    (hnd : (q.map QEntry.uri).Nodup) : ∀ x ∈ deleteFirst q u, x.uri ≠ u := by
  induction q with
  | nil => intro x hx; cases hx
  | cons a as ih =>
    rw [List.map_cons, List.nodup_cons] at hnd
    intro x hx
    by_cases ha : a.uri = u
    · rw [deleteFirst, if_pos ha] at hx
      intro hxu
      exact hnd.1 (ha ▸ hxu ▸ List.mem_map_of_mem QEntry.uri hx)
    · rw [deleteFirst, if_neg ha] at hx
      rcases List.mem_cons.mp hx with h | h
      · exact h ▸ ha
      · exact ih hnd.2 x h

/-- Running the producer over fresh, pairwise-distinct uris inserts one
waiting entry per item, in order. -/
theorem enqueueAll_queue : ∀ (items : List (String × Nat)) (s : Store),
    (items.map Prod.fst).Nodup →
    (∀ p ∈ items, ∀ x ∈ s.queue, x.uri ≠ p.1) →
    (enqueueAll s items).queue = s.queue ++ items.map mkEntry := by
  intro items
  induction items with
  | nil => intro s _ _; simp [enqueueAll]
  | cons p ps ih =>
    intro s hnd hdisj
    rw [List.map_cons, List.nodup_cons] at hnd
    have hfresh : is_enqueued s.queue p.1 = false :=
      is_enqueued_eq_false _ _ (fun x hx => hdisj p (List.mem_cons_self _ _) x hx)
    have hstep : (enqueue s p.1 p.2).1 =
        { queue := s.queue ++ [mkEntry p],
          action := s.action ++ [⟨p.1, p.2, "enqueue"⟩] } := by
      simp [enqueue, hfresh, mkEntry]
    show (enqueueAll (enqueue s p.1 p.2).1 ps).queue = _
    rw [hstep, ih _ hnd.2 ?fresh]
    · simp
    case fresh =>
      intro r hr x hx
      rcases List.mem_append.mp hx with h | h
      · exact hdisj r (List.mem_cons_of_mem _ hr) x h
      · rcases List.mem_singleton.mp h with rfl
        show p.1 ≠ r.1
        intro heq
        exact hnd.1 (heq ▸ List.mem_map_of_mem Prod.fst hr)

/-! ### FIFO drain and the retry loop under a held lock -/

/-- Sequentially dequeuing a store whose waiting entries have strictly
ascending timestamps and unique uris yields exactly those uris, oldest
first. -/
theorem drain_sorted : ∀ (n : Nat) (q : List QEntry) (acts : List ARecord),
    (q.map QEntry.uri).Nodup →
    (q.filter (fun x => x.state = QState.wait)).Pairwise (fun a b => a.ts < b.ts) →
    (q.filter (fun x => x.state = QState.wait)).length = n →
    drain ⟨q, acts⟩ n =
      (q.filter (fun x => x.state = QState.wait)).map QEntry.uri := by
  intro n
  induction n with
  | zero =>
    intro q acts _ _ hlen
    rw [List.length_eq_zero.mp hlen]
    rfl
  | succ n ih =>
    intro q acts hnd hpw hlen
    obtain ⟨e, w', hf⟩ : ∃ e w',
        q.filter (fun x => x.state = QState.wait) = e :: w' := by
      rcases hq : q.filter (fun x => x.state = QState.wait) with _ | ⟨e, w'⟩
      · rw [hq] at hlen; cases hlen
      · exact ⟨e, w', hq⟩
    have hmem : e ∈ q.filter (fun x => x.state = QState.wait) :=
      hf ▸ List.mem_cons_self e w'
    have heq : e ∈ q := List.mem_of_mem_filter hmem
    have hew : e.state = QState.wait :=
      of_decide_eq_true (List.mem_filter.mp hmem).2
    have hmin : ∀ x ∈ q, x.state = QState.wait → x ≠ e → e.ts < x.ts := by
      intro x hx hxw hxe
      have hxf : x ∈ q.filter (fun y => y.state = QState.wait) :=
        List.mem_filter.mpr ⟨hx, by simp [hxw]⟩
      rw [hf] at hxf
      rcases List.mem_cons.mp hxf with h | h
      · exact absurd h hxe
      · exact (List.pairwise_cons.mp (hf ▸ hpw)).1 x h
    have hfind : findOldestWait q = some e := findOldestWait_eq q e heq hew hmin
    have hds := dequeueSeq_found true ⟨q, acts⟩ 0 e hfind
    rw [drain, hds]
    have hq' : (setScrapeFirst q e.uri).filter (fun x => x.state = QState.wait) = w' :=
      filter_wait_setScrape q e w' hnd hf
    have hnd' : ((setScrapeFirst q e.uri).map QEntry.uri).Nodup := by
      rw [setScrapeFirst_map_uri]; exact hnd
    have hpw' : ((setScrapeFirst q e.uri).filter
        (fun x => x.state = QState.wait)).Pairwise (fun a b => a.ts < b.ts) := by
      rw [hq']
      exact (List.pairwise_cons.mp (hf ▸ hpw)).2
    have hlen' : ((setScrapeFirst q e.uri).filter
        (fun x => x.state = QState.wait)).length = n := by
      rw [hq']
      have := hf ▸ hlen
      simpa using this
    have hdr := ih (setScrapeFirst q e.uri) (acts ++ [⟨e.uri, 0, "scrape"⟩])
      hnd' hpw' hlen'
    rw [hq'] at hdr
    simp only [hf, List.map_cons]
    exact congrArg (e.uri :: ·) hdr

/-- The polling loop run with the lock already self-held (as it is from the
second attempt on): each acquire waits out its 3-second timeout and fails,
each miss advances the virtual clock by one, and a hit at relative attempt
`j` is recorded at `now + j` but happens at real time `rt + 3 * (j + 1)`. -/
theorem dqLoop_self_run : ∀ (j t : Nat), j < t →
    ∀ (obs : Nat → List QEntry) (k now rt : Nat) (e : QEntry),
    (∀ i, i < j → findOldestWait (obs (k + i)) = none) →
    findOldestWait (obs (k + j)) = some e →
    (dqLoop obs k now t LockOwner.self rt).found = some (e, now + j) ∧
    (dqLoop obs k now t LockOwner.self rt).rt = rt + 3 * (j + 1) := by
  intro j
  induction j with
  | zero =>
    intro t hlt obs k now rt e _ hfind
    obtain ⟨t', rfl⟩ : ∃ t', t = t' + 1 := ⟨t - 1, by omega⟩
    rw [dqLoop_found_succ obs k now t' LockOwner.self rt e (by simpa using hfind)]
    exact ⟨rfl, by simp [acquireResult]⟩
  | succ j ih =>
    intro t hlt obs k now rt e hmiss hfind
    obtain ⟨t', rfl⟩ : ∃ t', t = t' + 1 := ⟨t - 1, by omega⟩
    have hm0 : findOldestWait (obs k) = none := by
      simpa using hmiss 0 (by omega)
    rw [dqLoop_miss_succ obs k now t' LockOwner.self rt hm0]
    have hrec := ih t' (by omega) obs (k + 1) (now + 1) (rt + 3) e
      (fun i hi => by
        rw [show k + 1 + i = k + (i + 1) from by omega]
        exact hmiss (i + 1) (by omega))
      (by rw [show k + 1 + j = k + (j + 1) from by omega]; exact hfind)
    rw [show now + 1 + j = now + (j + 1) from by omega] at hrec
    rw [show rt + 3 + 3 * (j + 1) = rt + 3 * (j + 1 + 1) from by omega] at hrec
    simpa [acquireResult] using hrec

/-! ### Claim theorems -/

/-- Claim C2 (code_bug evidence): on a fresh id, `enqueue` does not return
`true` — its success path falls off the function end returning `None`
(modelled `none`), despite the `-> bool` annotation.  The duplicate path and
the unchanged waiting count behave as claimed: the second call returns
`false` and leaves the waiting-entry count at one. -/
theorem C2_enqueue_success_returns_none :
    (enqueue stEmpty "u1" 0).2 = none ∧
    (enqueue stEmpty "u1" 0).2 ≠ some true ∧
    (enqueue (enqueue stEmpty "u1" 0).1 "u1" 1).2 = some false ∧
    (enqueue (enqueue stEmpty "u1" 0).1 "u1" 1).1 = (enqueue stEmpty "u1" 0).1 ∧
    waitCount (enqueue (enqueue stEmpty "u1" 0).1 "u1" 1).1.queue =
      waitCount (enqueue stEmpty "u1" 0).1.queue := by
  decide

/-- Claim C3 (code_bug evidence): after ten empty polling attempts, `dequeue`
raises `EmptyQueueException` and leaves the store unmutated when the queue is
confirmed empty; but when a waiting entry exists at the post-loop count (a
concurrent insert after the attempts missed), the raise is skipped and the
function falls off the end, returning `None` — not the same `EmptyQueue`
failure the claim asserts. -/
theorem C3_exhaustion_divergence :
    dequeueSeq true stEmpty 0 = (DequeueOutcome.emptyErr, stEmpty) ∧
    (dequeueRun true (fun _ => []) [⟨"u", 0, QState.wait⟩] 0
        LockOwner.free).outcome = DequeueOutcome.noneReturn ∧
    DequeueOutcome.noneReturn ≠ DequeueOutcome.emptyErr := by
  decide

/-- Claim C4 (code_bug evidence): when `dequeue` starts while another thread
holds the mutex past the 3-second acquire timeout, the ignored `acquire`
return value lets the search and the state flip run without the guard (the
single search executes under owner `other`, never `self`), the call still
succeeds, and the final `release()` unlocks the other thread's lock. -/
theorem C4_guard_not_held :
    (dequeueRun true (fun _ => [⟨"u", 5, QState.wait⟩]) [⟨"u", 5, QState.wait⟩]
        0 LockOwner.other).outcome = DequeueOutcome.ok "u" ∧
    searchOwners (dequeueRun true (fun _ => [⟨"u", 5, QState.wait⟩])
        [⟨"u", 5, QState.wait⟩] 0 LockOwner.other).events = [LockOwner.other] ∧
    LockOwner.other ≠ LockOwner.self ∧
    (dequeueRun true (fun _ => [⟨"u", 5, QState.wait⟩]) [⟨"u", 5, QState.wait⟩]
        0 LockOwner.other).lockAfter = LockOwner.free := by
  decide

/-- Claim C5 (code_bug evidence): when a concurrent duplicate slips past the
`is_enqueued` check (absent at check time, present at insert time), the
unique `uri` index rejects the insert and — `insert_one` being wrapped in no
handler — the duplicate-key error propagates to the caller instead of being
mapped to a `false` return. -/
theorem C5_duplicate_key_propagates :
    enqueueRaced stEmpty ⟨[⟨"u", 0, QState.wait⟩], [⟨"u", 0, "enqueue"⟩]⟩ "u" 1 =
      Except.error MongoErr.duplicateKey :=
  rfl

/-- Claim C8 (code_bug evidence): `dequeue` on an empty queue crashes with an
`AttributeError` from `self._logger.debug` when no logger was injected, but
raises `EmptyQueueException` when one was — the injected logger gates which
fault the caller sees. -/
theorem C8_logger_gates_behavior :
    (dequeueRun false (fun _ => []) [] 0 LockOwner.free).outcome =
      DequeueOutcome.loggerCrash ∧
    (dequeueRun true (fun _ => []) [] 0 LockOwner.free).outcome =
      DequeueOutcome.emptyErr ∧
    DequeueOutcome.loggerCrash ≠ DequeueOutcome.emptyErr := by
  decide

/-- Claim C9 (code_bug evidence): a `dequeue` run over an empty queue makes
all ten polling attempts, performs no sleep (no real-delay operation exists
in the loop), and merely advances the virtual clock from 0 to 10 — one
fictitious second per miss. -/
theorem C9_no_real_delay :
    hasSleep (dequeueRun true (fun _ => []) [] 0 LockOwner.free).events = false ∧
    acquireCount (dequeueRun true (fun _ => []) [] 0 LockOwner.free).events = 10 ∧
    (dequeueRun true (fun _ => []) [] 0 LockOwner.free).virtualNow = 10 := by
  decide

/-- Claim C6: `finish(id)` unconditionally removes the queue entry for the id
(whatever its state) so that a subsequent presence check returns false,
appends a `"finish"` action record, and on an id with no matching entry
succeeds as a no-op leaving the queue unchanged. -/
theorem C6_finish_removes (s : Store) (u : String) (t : Nat)
    (hnd : (s.queue.map QEntry.uri).Nodup) :
    is_enqueued (dequeue_finish s u t).queue u = false ∧
    (dequeue_finish s u t).action = s.action ++ [⟨u, t, "finish"⟩] ∧
    (is_enqueued s.queue u = false → (dequeue_finish s u t).queue = s.queue) := by
  refine ⟨?_, rfl, ?_⟩
  · exact is_enqueued_eq_false _ _ (deleteFirst_removes s.queue u hnd)
  · intro h
    exact deleteFirst_of_absent s.queue u (uri_absent_of_not_enqueued s.queue u h)

/-- Witness for C6: finishing `"a"` in a two-entry store (one in-progress,
one waiting) leaves `"a"` absent; finishing `"a"` in a store without it is a
no-op. -/
theorem C6_finish_removes_witness :
    is_enqueued (dequeue_finish
      ⟨[⟨"a", 1, QState.scrape⟩, ⟨"b", 2, QState.wait⟩], []⟩ "a" 5).queue "a" = false ∧
    (dequeue_finish (⟨[⟨"b", 2, QState.wait⟩], []⟩ : Store) "a" 5).queue =
      (⟨[⟨"b", 2, QState.wait⟩], []⟩ : Store).queue :=
  ⟨(C6_finish_removes ⟨[⟨"a", 1, QState.scrape⟩, ⟨"b", 2, QState.wait⟩], []⟩
      "a" 5 (by decide)).1,
   (C6_finish_removes ⟨[⟨"b", 2, QState.wait⟩], []⟩ "a" 5 (by decide)).2.2 (by decide)⟩

/-- Claim C7: a successful `enqueue`, `dequeue` and `finish` each append
exactly one `"enqueue"`, `"scrape"` and `"finish"` action record respectively
(extending, never rewriting or deleting, the existing log), and an id taken
through the full lifecycle has per-id history `enqueue`, `scrape`, `finish`
with non-decreasing timestamps. -/
theorem C7_audit_append :
    (∀ (s : Store) (u : String) (t : Nat), (enqueue s u t).2 = none →
        (enqueue s u t).1.action = s.action ++ [⟨u, t, "enqueue"⟩]) ∧
    (∀ (lg : Bool) (s : Store) (start : Nat) (u : String) (s' : Store),
        dequeueSeq lg s start = (DequeueOutcome.ok u, s') →
        ∃ ts, s'.action = s.action ++ [⟨u, ts, "scrape"⟩]) ∧
    (∀ (s : Store) (u : String) (t : Nat),
        (dequeue_finish s u t).action = s.action ++ [⟨u, t, "finish"⟩]) ∧
    (∀ (u : String) (t1 t2 t3 : Nat), t1 ≤ t2 → t2 ≤ t3 →
        historyFor u (dequeue_finish
            (dequeueSeq true (enqueue stEmpty u t1).1 t2).2 u t3).action =
          [⟨u, t1, "enqueue"⟩, ⟨u, t2, "scrape"⟩, ⟨u, t3, "finish"⟩] ∧
        List.Chain' (fun a b => a.ts ≤ b.ts)
          (historyFor u (dequeue_finish
            (dequeueSeq true (enqueue stEmpty u t1).1 t2).2 u t3).action)) := by
  refine ⟨?_, ?_, ?_, ?_⟩
  · intro s u t h
    by_cases he : is_enqueued s.queue u
    · simp [enqueue, he] at h
    · simp [enqueue, he]
  · intro lg s start u s' h
    rcases hfound : (dqLoop (fun _ => s.queue) 0 start 10 LockOwner.free start).found
      with _ | p
    · have hn := dequeueRun_none lg (fun _ => s.queue) s.queue start LockOwner.free hfound
      have hseq : dequeueSeq lg s start =
          ((dequeueRun lg (fun _ => s.queue) s.queue start LockOwner.free).outcome, s) := by
        simp only [dequeueSeq, hn.1]
      rw [hseq] at h
      exact absurd (congrArg Prod.fst h) (hn.2 u)
    · have hs := dequeueRun_some lg (fun _ => s.queue) s.queue start LockOwner.free p hfound
      have hseq : dequeueSeq lg s start =
          (DequeueOutcome.ok p.1.uri,
           ⟨setScrapeFirst s.queue p.1.uri,
            s.action ++ [⟨p.1.uri, p.2, "scrape"⟩]⟩) := by
        simp only [dequeueSeq, hs.1, hs.2.1]
      rw [hseq, Prod.mk.injEq] at h
      obtain ⟨h1, h2⟩ := h
      injection h1 with hu
      subst hu
      subst h2
      exact ⟨p.2, rfl⟩
  · intro s u t
    rfl
  · intro u t1 t2 t3 h12 h23
    have h1 : (enqueue stEmpty u t1).1 =
        ⟨[⟨u, t1, QState.wait⟩], [⟨u, t1, "enqueue"⟩]⟩ := rfl
    have hfind : findOldestWait [⟨u, t1, QState.wait⟩] =
        some ⟨u, t1, QState.wait⟩ := by
      simp [findOldestWait, minByTs]
    have h2 := dequeueSeq_found true ⟨[⟨u, t1, QState.wait⟩], [⟨u, t1, "enqueue"⟩]⟩
      t2 ⟨u, t1, QState.wait⟩ hfind
    rw [h1, h2]
    constructor
    · simp [dequeue_finish, historyFor]
    · simp [dequeue_finish, historyFor, List.chain'_cons]
      omega

/-- Witness for C7: each conjunct at a concrete store and lifecycle. -/
theorem C7_audit_append_witness :
    ((enqueue stEmpty "u" 0).1.action = stEmpty.action ++ [⟨"u", 0, "enqueue"⟩]) ∧
    (∃ ts, (⟨[⟨"u", 1, QState.scrape⟩], [⟨"u", 2, "scrape"⟩]⟩ : Store).action =
        (⟨[⟨"u", 1, QState.wait⟩], []⟩ : Store).action ++ [⟨"u", ts, "scrape"⟩]) ∧
    ((dequeue_finish stEmpty "u" 3).action = stEmpty.action ++ [⟨"u", 3, "finish"⟩]) ∧
    (historyFor "u" (dequeue_finish
        (dequeueSeq true (enqueue stEmpty "u" 1).1 2).2 "u" 3).action =
      [⟨"u", 1, "enqueue"⟩, ⟨"u", 2, "scrape"⟩, ⟨"u", 3, "finish"⟩] ∧
     List.Chain' (fun a b => a.ts ≤ b.ts) (historyFor "u" (dequeue_finish
        (dequeueSeq true (enqueue stEmpty "u" 1).1 2).2 "u" 3).action)) :=
  ⟨C7_audit_append.1 stEmpty "u" 0 (by decide),
   C7_audit_append.2.1 true ⟨[⟨"u", 1, QState.wait⟩], []⟩ 2 "u"
     ⟨[⟨"u", 1, QState.scrape⟩], [⟨"u", 2, "scrape"⟩]⟩ (by decide),
   C7_audit_append.2.2.1 stEmpty "u" 3,
   C7_audit_append.2.2.2 "u" 1 2 3 (by decide) (by decide)⟩

/-- Claim C1: a sequential `dequeue` that finds a waiting entry returns the
uri of the waiting entry with the strictly minimal enqueue timestamp and
flips exactly that entry's state to `"scrape"`, leaving all other entries
untouched; consequently, ids enqueued at strictly increasing times come back
in exactly that order under sequential `dequeue` calls. -/
theorem C1_dequeue_fifo :
    (∀ (s : Store) (start : Nat) (e : QEntry),
        (s.queue.map QEntry.uri).Nodup →
        e ∈ s.queue → e.state = QState.wait →
        (∀ x ∈ s.queue, x.state = QState.wait → x ≠ e → e.ts < x.ts) →
        (dequeueSeq true s start).1 = DequeueOutcome.ok e.uri ∧
        ∃ l1 l2, s.queue = l1 ++ e :: l2 ∧
          (dequeueSeq true s start).2.queue =
            l1 ++ { e with state := QState.scrape } :: l2) ∧
    (∀ items : List (String × Nat),
        (items.map Prod.fst).Nodup →
        (items.map Prod.snd).Pairwise (fun a b => a < b) →
        drain (enqueueAll stEmpty items) items.length = items.map Prod.fst) := by
  constructor
  · intro s start e hnd he hw hmin
    have hfind := findOldestWait_eq s.queue e he hw hmin
    have hds := dequeueSeq_found true s start e hfind
    refine ⟨by rw [hds], ?_⟩
    obtain ⟨l1, l2, hdec⟩ := List.append_of_mem he
    refine ⟨l1, l2, hdec, ?_⟩
    rw [hds]
    show setScrapeFirst s.queue e.uri = _
    rw [hdec]
    apply setScrapeFirst_append
    intro x hx hxe
    rw [hdec, List.map_append, List.nodup_append] at hnd
    exact hnd.2.2 (List.mem_map_of_mem QEntry.uri hx) (by rw [hxe]; simp)
  · intro items hnd hts
    have hq0 := enqueueAll_queue items stEmpty hnd (by intro p hp x hx; cases hx)
    have hq : (enqueueAll stEmpty items).queue = items.map mkEntry := by
      simpa [stEmpty] using hq0
    have hS : enqueueAll stEmpty items =
        ⟨(enqueueAll stEmpty items).queue, (enqueueAll stEmpty items).action⟩ := rfl
    rw [hS, hq]
    have hfil : (items.map mkEntry).filter (fun x => x.state = QState.wait) =
        items.map mkEntry := by
      apply List.filter_eq_self.mpr
      intro a ha
      obtain ⟨p, hp, rfl⟩ := List.mem_map.mp ha
      simp [mkEntry]
    have hnd' : ((items.map mkEntry).map QEntry.uri).Nodup := by
      rw [List.map_map]
      exact hnd
    have hpw' : ((items.map mkEntry).filter
        (fun x => x.state = QState.wait)).Pairwise (fun a b => a.ts < b.ts) := by
      rw [hfil, List.pairwise_map]
      exact List.pairwise_map.mp hts
    have hlen' : ((items.map mkEntry).filter
        (fun x => x.state = QState.wait)).length = items.length := by
      rw [hfil, List.length_map]
    have hdr := drain_sorted items.length (items.map mkEntry)
      (enqueueAll stEmpty items).action hnd' hpw' hlen'
    rw [hfil] at hdr
    rw [hdr, List.map_map]
    rfl

/-- Witness for C1: two ids enqueued at times 1 and 2 come back as
`"a"` then `"b"`, and the single step flips exactly the oldest entry. -/
theorem C1_dequeue_fifo_witness :
    ((dequeueSeq true ⟨[⟨"a", 1, QState.wait⟩, ⟨"b", 2, QState.wait⟩], []⟩ 0).1 =
        DequeueOutcome.ok "a" ∧
      ∃ l1 l2,
        [⟨"a", 1, QState.wait⟩, ⟨"b", 2, QState.wait⟩] =
          l1 ++ (⟨"a", 1, QState.wait⟩ : QEntry) :: l2 ∧
        (dequeueSeq true ⟨[⟨"a", 1, QState.wait⟩, ⟨"b", 2, QState.wait⟩], []⟩ 0).2.queue =
          l1 ++ (⟨"a", 1, QState.scrape⟩ : QEntry) :: l2) ∧
    drain (enqueueAll stEmpty [("a", 1), ("b", 2)]) 2 = ["a", "b"] :=
  ⟨C1_dequeue_fifo.1 ⟨[⟨"a", 1, QState.wait⟩, ⟨"b", 2, QState.wait⟩], []⟩ 0
      ⟨"a", 1, QState.wait⟩ (by decide) (by decide) (by decide) (by decide),
   C1_dequeue_fifo.2 [("a", 1), ("b", 2)] (by decide) (by decide)⟩

/-- The queue contents seen by polling attempt `k` when the queue starts
empty and a concurrent producer inserts entry `e` before attempt `m`. -/
def obsAfter (m : Nat) (e : QEntry) : Nat → List QEntry :=
  fun k => if k < m then [] else [e]

/-- Claim C10: when the first `m ≥ 1` polling attempts miss and attempt `m`
succeeds (the entry appeared concurrently), the `"scrape"` action record is
stamped `start + m` — the time captured at entry plus one fictitious second
per miss — while the state transition happens at real time `start + 3 * m`
(each retry waits out the 3-second acquire timeout on the never-released
mutex), so the recorded timestamp differs from the transition time. -/
theorem C10_started_timestamp (m : Nat) (h1 : 1 ≤ m) (h9 : m ≤ 9)
    (u : String) (t0 start : Nat) :
    (dequeueRun true (obsAfter m ⟨u, t0, QState.wait⟩) [⟨u, t0, QState.wait⟩]
        start LockOwner.free).outcome = DequeueOutcome.ok u ∧
    (dequeueRun true (obsAfter m ⟨u, t0, QState.wait⟩) [⟨u, t0, QState.wait⟩]
        start LockOwner.free).foundEntry =
      some (⟨u, t0, QState.wait⟩, start + m) ∧
    (dequeueRun true (obsAfter m ⟨u, t0, QState.wait⟩) [⟨u, t0, QState.wait⟩]
        start LockOwner.free).transitionTime = some (start + 3 * m) ∧
    start + m ≠ start + 3 * m := by
  have h0 : 0 < m := h1
  have hm0 : findOldestWait (obsAfter m ⟨u, t0, QState.wait⟩ 0) = none := by
    simp [obsAfter, h0, findOldestWait, minByTs]
  have hrec := dqLoop_self_run (m - 1) 9 (by omega) (obsAfter m ⟨u, t0, QState.wait⟩)
    1 (start + 1) start ⟨u, t0, QState.wait⟩
    (fun i hi => by
      have hlt : 1 + i < m := by omega
      simp [obsAfter, hlt, findOldestWait, minByTs])
    (by
      have hge : ¬ 1 + (m - 1) < m := by omega
      simp [obsAfter, hge, findOldestWait, minByTs])
  rw [show start + 1 + (m - 1) = start + m from by omega] at hrec
  rw [show start + 3 * (m - 1 + 1) = start + 3 * m from by omega] at hrec
  have hm := dqLoop_miss_succ (obsAfter m ⟨u, t0, QState.wait⟩) 0 start 9
    LockOwner.free start hm0
  rw [show (9 : Nat) + 1 = 10 from rfl] at hm
  have hfound : (dqLoop (obsAfter m ⟨u, t0, QState.wait⟩) 0 start 10
      LockOwner.free start).found = some (⟨u, t0, QState.wait⟩, start + m) := by
    rw [hm]
    simpa [acquireResult] using hrec.1
  have hrt : (dqLoop (obsAfter m ⟨u, t0, QState.wait⟩) 0 start 10
      LockOwner.free start).rt = start + 3 * m := by
    rw [hm]
    simpa [acquireResult] using hrec.2
  obtain ⟨hf, ho, ht⟩ := dequeueRun_some true (obsAfter m ⟨u, t0, QState.wait⟩)
    [⟨u, t0, QState.wait⟩] start LockOwner.free (⟨u, t0, QState.wait⟩, start + m)
    hfound
  refine ⟨ho, hf, ?_, by omega⟩
  rw [ht, hrt]

/-- Witness for C10: one miss (`m = 1`), entry appearing before attempt 1;
the record says second 1 while the flip happened at second 3. -/
theorem C10_started_timestamp_witness :
    (dequeueRun true (obsAfter 1 ⟨"u", 0, QState.wait⟩) [⟨"u", 0, QState.wait⟩]
        0 LockOwner.free).outcome = DequeueOutcome.ok "u" ∧
    (dequeueRun true (obsAfter 1 ⟨"u", 0, QState.wait⟩) [⟨"u", 0, QState.wait⟩]
        0 LockOwner.free).foundEntry = some (⟨"u", 0, QState.wait⟩, 0 + 1) ∧
    (dequeueRun true (obsAfter 1 ⟨"u", 0, QState.wait⟩) [⟨"u", 0, QState.wait⟩]
        0 LockOwner.free).transitionTime = some (0 + 3 * 1) ∧
    0 + 1 ≠ 0 + 3 * 1 :=
  C10_started_timestamp 1 (by decide) (by decide) "u" 0 0

end RecipeStore
